import Mathlib

/-! Verification development for the CutCable wizard
(`src/wizard/plugin.program.cutcable.wizard/cutcable_wizard.py`).

The Python code is shallowly embedded: pure helpers become Lean functions
over `List Char` / `String`, and every effectful method becomes a function
from its inputs plus an explicit environment (the outcomes of the external
calls it makes: HTTP requests, filesystem tests, dialog answers) to a
result value together with a trace of the externally visible actions it
performs.  All definitions are executable.  Inputs are assumed ASCII, which
covers every string the wizard manipulates (version strings, directory
names of the form `backup_<timestamp>`, build names).
-/

/-! Python `int(...)` over a string (ASCII).

`int(s)` strips whitespace, accepts one optional sign, and then a run of
digits in which single underscores may separate digits (Python 3.6+).
Anything else raises `ValueError`, modelled as `none`. -/

def isPySpace (c : Char) : Bool :=
  c = ' ' || c = '\t' || c = '\n' || c = '\r' || c = '\x0b' || c = '\x0c'

/-- Consume the tail of a digit run: `(digit | '_' digit)*`, returning all
digits in order, or `none` if the shape is invalid. -/
def pyDigitsTail : List Char → List Char → Option (List Char)
  | [], acc => some acc.reverse
  | '_' :: c :: rest, acc =>
    if c.isDigit then pyDigitsTail rest (c :: acc) else none
  | ['_'], _ => none
  | c :: rest, acc =>
    if c.isDigit then pyDigitsTail rest (c :: acc) else none

/-- A full digit run `digit (digit | '_' digit)*` consuming the whole list. -/
def pyDigitsRun : List Char → Option (List Char)
  | [] => none
  | c :: rest => if c.isDigit then pyDigitsTail rest [c] else none

def digitsVal (cs : List Char) : Int :=
  cs.foldl (fun a c => a * 10 + (Int.ofNat (c.toNat - 48))) 0

/-- Model of Python `int(s)` on a character list; `none` means `ValueError`. -/
def pyIntChars (cs : List Char) : Option Int :=
  let t := ((cs.dropWhile isPySpace).reverse.dropWhile isPySpace).reverse
  match t with
  | '+' :: rest => (pyDigitsRun rest).map digitsVal
  | '-' :: rest => (pyDigitsRun rest).map (fun ds => -(digitsVal ds))
  | _ => (pyDigitsRun t).map digitsVal

/-- Python `str.split(sep)` for a single-character separator, keeping empty
pieces (`"".split('.') == [""]` corresponds to `[[]]`). -/
def splitOnChar (sep : Char) : List Char → List (List Char)
  | [] => [[]]
  | c :: rest =>
    if c = sep then [] :: splitOnChar sep rest
    else
      match splitOnChar sep rest with
      | g :: gs => (c :: g) :: gs
      | [] => [[c]]

/-! Embedding of `compare_versions` (cutcable_wizard.py lines 143-161).

Both comprehensions `[int(x) for x in v.split('.')]` are modelled by
`parseParts`; a `ValueError` anywhere makes the whole parse `none`, and
the surrounding `except` turns that into the result `0`. -/

def parseParts : List (List Char) → Option (List Int)
  | [] => some []
  | s :: rest =>
    match pyIntChars s, parseParts rest with
    | some n, some ns => some (n :: ns)
    | _, _ => none

def padZeros (l : List Int) (n : Nat) : List Int :=
  l ++ List.replicate (n - l.length) 0

def cmpZip : List Int → List Int → Int
  | a :: as, b :: bs =>
    if a > b then 1 else if a < b then -1 else cmpZip as bs
  | _, _ => 0

/-- Model of `compare_versions`: 1 if v1 > v2, -1 if v1 < v2, 0 if equal; any parse
failure is caught and yields 0.  v1 is parsed first, as in the source. -/
def compare_versions (version1 version2 : String) : Int :=
  match parseParts (splitOnChar '.' version1.data) with
  | none => 0
  | some p1 =>
    match parseParts (splitOnChar '.' version2.data) with
    | none => 0
    | some p2 =>
      let m := max p1.length p2.length
      cmpZip (padZeros p1 m) (padZeros p2 m)

/-! Embedding of `extract_version_from_name` (lines 132-141).

`re.search(r'v(\d+\.\d+(?:\.\d+)?)', build_name.lower())`: scan left to
right for a `v` followed by `digits '.' digits` and optionally a further
`'.' digits`; fall back to `"1.0"`. -/

def asciiLower (c : Char) : Char :=
  if 'A' ≤ c ∧ c ≤ 'Z' then Char.ofNat (c.toNat + 32) else c

/-- Try to match `\d+\.\d+(?:\.\d+)?` at the head of the list, returning the
matched characters.  `takeWhile isDigit` is the greedy `\d+`. -/
def matchVerDigits (cs : List Char) : Option (List Char) :=
  let d1 := cs.takeWhile Char.isDigit
  let r1 := cs.dropWhile Char.isDigit
  if d1 = [] then none
  else
    match r1 with
    | '.' :: r2 =>
      let d2 := r2.takeWhile Char.isDigit
      let r3 := r2.dropWhile Char.isDigit
      if d2 = [] then none
      else
        match r3 with
        | '.' :: r4 =>
          let d3 := r4.takeWhile Char.isDigit
          if d3 = [] then some (d1 ++ '.' :: d2)
          else some (d1 ++ '.' :: d2 ++ '.' :: d3)
        | _ => some (d1 ++ '.' :: d2)
    | _ => none

/-- Leftmost match of `v(\d+\.\d+(?:\.\d+)?)`. -/
def findVer : List Char → Option (List Char)
  | [] => none
  | c :: rest =>
    if c = 'v' then
      match matchVerDigits rest with
      | some s => some s
      | none => findVer rest
    else findVer rest

def extract_version_from_name (build_name : String) : String :=
  match findVer (build_name.data.map asciiLower) with
  | some cs => String.mk cs
  | none => "1.0"

/-! Lemmas about the comparator. -/

theorem parseParts_eq_none_of_mem {s : List Char} {l : List (List Char)}
    (hs : s ∈ l) (hn : pyIntChars s = none) : parseParts l = none := by
  induction l with
  | nil => cases hs
  | cons t rest ih =>
    rcases List.mem_cons.mp hs with h | h
    · subst h
      simp [parseParts, hn]
    · simp only [parseParts, ih h]
      cases pyIntChars t <;> rfl

/-- Claim C9: a non-numeric segment (one on which Python `int` raises) in
either operand makes `compare_versions` return EQUAL (0); the function is
total, so it never raises. -/
theorem c9_malformed_compare_equal (v1 v2 : String)
    (h : (∃ s ∈ splitOnChar '.' v1.data, pyIntChars s = none) ∨
         (∃ s ∈ splitOnChar '.' v2.data, pyIntChars s = none)) :
    compare_versions v1 v2 = 0 := by
  rcases h with ⟨s, hs, hn⟩ | ⟨s, hs, hn⟩
  · unfold compare_versions
    rw [parseParts_eq_none_of_mem hs hn]
  · unfold compare_versions
    rw [parseParts_eq_none_of_mem hs hn]
    cases parseParts (splitOnChar '.' v1.data) <;> rfl

theorem c9_malformed_compare_equal_witness :
    (∃ s ∈ splitOnChar '.' ("1.x" : String).data, pyIntChars s = none) ∧
    compare_versions "1.x" "2.0" = 0 :=
  ⟨by decide, c9_malformed_compare_equal "1.x" "2.0" (Or.inl (by decide))⟩

/-! Embedding of `fetch_builds_list` (lines 182-204).

The loop `for attempt in range(self.max_retries)` is embedded with the
number of remaining attempts as explicit fuel (`fetch_builds_list` starts
it at `max_retries = 3`).  Each attempt performs one HTTP GET whose outcome
is given by `env attempt`: either a raised exception / non-2xx status
(`err`) or a parsed JSON document.  The schema check
`if 'builds' not in builds_data: raise ValueError(...)` raises inside the
same `try`, so it is handled by the very same `except` branch as a network
failure: sleep `2 ** attempt` and retry while `attempt < max_retries - 1`,
else fall out and return `None`. -/

structure JsonDoc where
  keys : List String
  payload : Nat
deriving DecidableEq

inductive HttpResponse
  | err
  | json (d : JsonDoc)
deriving DecidableEq

structure FetchTrace where
  result : Option JsonDoc
  requests : Nat
  backoffs : List Nat
deriving DecidableEq

/-- One pass of the retry loop; the second argument is the current attempt
index, the third the number of attempts still allowed (fuel). -/
def fetchGo (env : Nat → HttpResponse) : Nat → Nat → FetchTrace
  | _, 0 => ⟨none, 0, []⟩
  | attempt, 1 =>
    (match env attempt with
     | HttpResponse.json d =>
       if "builds" ∈ d.keys then ⟨some d, 1, []⟩ else ⟨none, 1, []⟩
     | HttpResponse.err => ⟨none, 1, []⟩)
  | attempt, fuel + 2 =>
    (match env attempt with
     | HttpResponse.json d =>
       if "builds" ∈ d.keys then ⟨some d, 1, []⟩
       else
         let t := fetchGo env (attempt + 1) (fuel + 1)
         ⟨t.result, t.requests + 1, 2 ^ attempt :: t.backoffs⟩
     | HttpResponse.err =>
       let t := fetchGo env (attempt + 1) (fuel + 1)
       ⟨t.result, t.requests + 1, 2 ^ attempt :: t.backoffs⟩)

def fetch_builds_list (env : Nat → HttpResponse) : FetchTrace :=
  fetchGo env 0 3

/-- A failing attempt outcome: either a network failure, or a response whose
JSON body lacks the top-level `builds` key. -/
def badResp : HttpResponse → Bool
  | HttpResponse.err => true
  | HttpResponse.json d => !("builds" ∈ d.keys : Bool)

/-- Environment for the C2 counterexample: the first response is a
well-formed JSON document without the `builds` key (a schema error), the
second has it. -/
def c2Env : Nat → HttpResponse := fun n =>
  if n = 0 then HttpResponse.json ⟨["other"], 0⟩
  else HttpResponse.json ⟨["builds"], 1⟩

/-- Environment in which every attempt fails with a schema error. -/
def c2AllFailEnv : Nat → HttpResponse := fun n =>
  HttpResponse.json ⟨["stuff"], n⟩

/-- Counterexample to claim C2: after a response whose body lacks the
`builds` key, the code does NOT surface the error immediately — it sleeps
`2 ^ 0` seconds and performs a second request, returning that second
response.  So a schema error is retried exactly like a network failure. -/
theorem c2_schema_error_retried_counterexample :
    badResp (c2Env 0) = true ∧
    fetch_builds_list c2Env = ⟨some ⟨["builds"], 1⟩, 2, [1]⟩ ∧
    (fetch_builds_list c2Env).requests ≠ 1 := by
  refine ⟨by decide, by decide, by decide⟩

/-- A failing attempt with one attempt of fuel left: fall out of the loop
and return `None`. -/
theorem fetchGo_bad_last (env : Nat → HttpResponse) (a : Nat)
    (h : badResp (env a) = true) : fetchGo env a 1 = ⟨none, 1, []⟩ := by
  cases hv : env a with
  | err => simp [fetchGo, hv]
  | json d =>
    rw [hv] at h
    have hd : ¬ ("builds" ∈ d.keys) := by simpa [badResp] using h
    simp [fetchGo, hv, hd]

/-- A failing attempt with two attempts of fuel left: back off `2 ^ a`
seconds and retry. -/
theorem fetchGo_bad_two (env : Nat → HttpResponse) (a : Nat)
    (h : badResp (env a) = true) :
    fetchGo env a 2 = ⟨(fetchGo env (a + 1) 1).result,
      (fetchGo env (a + 1) 1).requests + 1,
      2 ^ a :: (fetchGo env (a + 1) 1).backoffs⟩ := by
  cases hv : env a with
  | err => simp [fetchGo, hv]
  | json d =>
    rw [hv] at h
    have hd : ¬ ("builds" ∈ d.keys) := by simpa [badResp] using h
    simp [fetchGo, hv, hd]

/-- A failing attempt with three attempts of fuel left: back off and retry. -/
theorem fetchGo_bad_three (env : Nat → HttpResponse) (a : Nat)
    (h : badResp (env a) = true) :
    fetchGo env a 3 = ⟨(fetchGo env (a + 1) 2).result,
      (fetchGo env (a + 1) 2).requests + 1,
      2 ^ a :: (fetchGo env (a + 1) 2).backoffs⟩ := by
  cases hv : env a with
  | err => simp [fetchGo, hv]
  | json d =>
    rw [hv] at h
    have hd : ¬ ("builds" ∈ d.keys) := by simpa [badResp] using h
    simp [fetchGo, hv, hd]

/-- Claim C2 as amended: a response lacking the `builds` key is treated by
`fetch_builds_list` exactly like a network failure: it is retried with
exponential backoff (`2 ^ attempt` seconds) up to the same bound of 3
attempts, and when every attempt fails — for either reason, in any mix —
the call returns `None`, indistinguishable from pure network failure. -/
theorem c2_amended_schema_errors_retried (env : Nat → HttpResponse)
    (h0 : badResp (env 0) = true) (h1 : badResp (env 1) = true)
    (h2 : badResp (env 2) = true) :
    fetch_builds_list env = ⟨none, 3, [1, 2]⟩ := by
  have e0 := fetchGo_bad_three env 0 h0
  have e1 := fetchGo_bad_two env 1 h1
  have e2 := fetchGo_bad_last env 2 h2
  simp only [fetch_builds_list, e0, zero_add, e1, Nat.reduceAdd, e2]
  rfl

theorem c2_amended_schema_errors_retried_witness :
    (badResp (c2AllFailEnv 0) = true ∧ badResp (c2AllFailEnv 1) = true ∧
     badResp (c2AllFailEnv 2) = true) ∧
    fetch_builds_list c2AllFailEnv = ⟨none, 3, [1, 2]⟩ :=
  ⟨⟨by decide, by decide, by decide⟩,
   c2_amended_schema_errors_retried c2AllFailEnv (by decide) (by decide)
     (by decide)⟩

/-! Embedding of `cleanup_old_backups` (lines 335-366).

The method lists the backup directory, keeps the entries whose name starts
with `backup_` and whose second `_`-separated piece parses as an int
(others hit a `continue`), sorts the `(timestamp, path)` tuples descending
(`backups.sort(reverse=True)` — Python tuple order: by timestamp, ties by
path), and removes every entry at index ≥ `keep_count`.  Python's sort and
`List.insertionSort` agree here because the tuple order is total and
antisymmetric, so the sorted list is unique. -/

/-- Parse one directory name exactly as the loop body does. -/
def parseBackupDir (d : String) : Option (Int × String) :=
  if List.isPrefixOf ("backup_".data) d.data then
    match splitOnChar '_' d.data with
    | _ :: seg :: _ =>
      match pyIntChars seg with
      | some t => some (t, d)
      | none => none
    | _ => none
  else none

def collectBackups (dirs : List String) : List (Int × String) :=
  dirs.filterMap parseBackupDir

/-- Relation: `a` may precede `b` in the descending tuple order (Python
`sort(reverse=True)` on `(timestamp, path)`). -/
def tupDesc (a b : Int × String) : Prop :=
  b.1 < a.1 ∨ (b.1 = a.1 ∧ ¬ a.2.data < b.2.data)

instance : DecidableRel tupDesc := fun a b =>
  inferInstanceAs (Decidable (b.1 < a.1 ∨ (b.1 = a.1 ∧ ¬ a.2.data < b.2.data)))

instance : IsTotal (Int × String) tupDesc := by
  constructor
  intro a b
  rcases lt_trichotomy a.1 b.1 with h | h | h
  · exact Or.inr (Or.inl h)
  · rcases le_or_lt b.2.data a.2.data with h2 | h2
    · exact Or.inl (Or.inr ⟨h.symm, not_lt.mpr h2⟩)
    · exact Or.inr (Or.inr ⟨h, not_lt.mpr h2.le⟩)
  · exact Or.inl (Or.inl h)

instance : IsTrans (Int × String) tupDesc := by
  constructor
  intro a b c hab hbc
  rcases hab with h1 | ⟨h1, h1s⟩
  · rcases hbc with h2 | ⟨h2, _⟩
    · exact Or.inl (h2.trans h1)
    · exact Or.inl (h2 ▸ h1)
  · rcases hbc with h2 | ⟨h2, h2s⟩
    · exact Or.inl (h1 ▸ h2)
    · refine Or.inr ⟨h2.trans h1, fun hlt => ?_⟩
      exact absurd (lt_of_lt_of_le hlt ((not_lt.mp h2s).trans (not_lt.mp h1s)))
        (lt_irrefl _)

def sortedBackups (dirs : List String) : List (Int × String) :=
  List.insertionSort tupDesc (collectBackups dirs)

/-- The entries at index ≥ `keep_count` of the descending-sorted list: the
tuples whose directories `cleanup_old_backups` deletes. -/
def removedBackups (dirs : List String) (keep_count : Nat) : List (Int × String) :=
  (sortedBackups dirs).drop keep_count

/-- The entries at index < `keep_count`: the snapshots left on disk. -/
def keptBackups (dirs : List String) (keep_count : Nat) : List (Int × String) :=
  (sortedBackups dirs).take keep_count

/-- Model of `cleanup_old_backups`: the list of directory names it removes. -/
def cleanup_old_backups (dirs : List String) (keep_count : Nat) : List String :=
  (removedBackups dirs keep_count).map Prod.snd

/-- Claim C6: with `keep_count + k` recognised snapshots (k ≥ 1) of pairwise
distinct timestamps, pruning removes exactly `k` snapshots, keeps exactly
`keep_count`, every removed timestamp is strictly smaller than every kept
one, and together they are exactly the original collection. -/
theorem c6_prune_removes_oldest (dirs : List String) (keep_count k : Nat)
    (hk : 1 ≤ k)
    (hlen : (collectBackups dirs).length = keep_count + k)
    (hdist : (collectBackups dirs).Pairwise (fun a b => a.1 ≠ b.1)) :
    cleanup_old_backups dirs keep_count =
      (removedBackups dirs keep_count).map Prod.snd ∧
    (removedBackups dirs keep_count).length = k ∧
    (keptBackups dirs keep_count).length = keep_count ∧
    (∀ r ∈ removedBackups dirs keep_count,
      ∀ q ∈ keptBackups dirs keep_count, r.1 < q.1) ∧
    (keptBackups dirs keep_count ++ removedBackups dirs keep_count).Perm
      (collectBackups dirs) := by
  have hperm : (sortedBackups dirs).Perm (collectBackups dirs) :=
    List.perm_insertionSort tupDesc (collectBackups dirs)
  have hslen : (sortedBackups dirs).length = keep_count + k :=
    hperm.length_eq.trans hlen
  have hsorted : List.Pairwise tupDesc (sortedBackups dirs) :=
    List.sorted_insertionSort tupDesc (collectBackups dirs)
  have hsdist : (sortedBackups dirs).Pairwise (fun a b => a.1 ≠ b.1) :=
    (List.Perm.pairwise_iff (fun hxy => hxy.symm) hperm).mpr hdist
  have hsplit := List.take_append_drop keep_count (sortedBackups dirs)
  refine ⟨rfl, ?_, ?_, ?_, ?_⟩
  · rw [removedBackups, List.length_drop, hslen]
    omega
  · rw [keptBackups, List.length_take, hslen]
    omega
  · intro r hr q hq
    have happ : List.Pairwise tupDesc
        (keptBackups dirs keep_count ++ removedBackups dirs keep_count) := by
      rw [keptBackups, removedBackups, hsplit]
      exact hsorted
    have happne : List.Pairwise (fun a b => a.1 ≠ b.1)
        (keptBackups dirs keep_count ++ removedBackups dirs keep_count) := by
      rw [keptBackups, removedBackups, hsplit]
      exact hsdist
    have hdesc : ∀ a ∈ keptBackups dirs keep_count,
        ∀ b ∈ removedBackups dirs keep_count, tupDesc a b :=
      (List.pairwise_append.mp happ).2.2
    have hne : ∀ a ∈ keptBackups dirs keep_count,
        ∀ b ∈ removedBackups dirs keep_count, a.1 ≠ b.1 :=
      (List.pairwise_append.mp happne).2.2
    rcases hdesc q hq r hr with h | ⟨h, _⟩
    · exact h
    · exact absurd h.symm (hne q hq r hr)
  · rw [keptBackups, removedBackups, hsplit]
    exact hperm

theorem c6_prune_removes_oldest_witness :
    (1 ≤ 1 ∧
     (collectBackups ["backup_300", "junk", "backup_100", "backup_200",
        "backup_50", "backup_x"]).length = 3 + 1 ∧
     (collectBackups ["backup_300", "junk", "backup_100", "backup_200",
        "backup_50", "backup_x"]).Pairwise (fun a b => a.1 ≠ b.1)) ∧
    (cleanup_old_backups ["backup_300", "junk", "backup_100", "backup_200",
        "backup_50", "backup_x"] 3 =
      (removedBackups ["backup_300", "junk", "backup_100", "backup_200",
        "backup_50", "backup_x"] 3).map Prod.snd ∧
     (removedBackups ["backup_300", "junk", "backup_100", "backup_200",
        "backup_50", "backup_x"] 3).length = 1 ∧
     (keptBackups ["backup_300", "junk", "backup_100", "backup_200",
        "backup_50", "backup_x"] 3).length = 3 ∧
     (∀ r ∈ removedBackups ["backup_300", "junk", "backup_100", "backup_200",
        "backup_50", "backup_x"] 3,
       ∀ q ∈ keptBackups ["backup_300", "junk", "backup_100", "backup_200",
        "backup_50", "backup_x"] 3, r.1 < q.1) ∧
     (keptBackups ["backup_300", "junk", "backup_100", "backup_200",
        "backup_50", "backup_x"] 3 ++
      removedBackups ["backup_300", "junk", "backup_100", "backup_200",
        "backup_50", "backup_x"] 3).Perm
       (collectBackups ["backup_300", "junk", "backup_100", "backup_200",
        "backup_50", "backup_x"])) :=
  ⟨⟨by decide, by decide, by decide⟩,
   c6_prune_removes_oldest _ 3 1 (by decide) (by decide) (by decide)⟩

/-! Embedding of `create_backup` (lines 219-272).

The method iterates the fixed `backup_items` list.  A missing source is
skipped by the `if xbmcvfs.exists(source_path)` guard.  A copy is either
`shutil.copytree(source, dest, ignore_errors=True)` for a directory —
note that `copytree` has no `ignore_errors` keyword, so in CPython this
call raises `TypeError` unconditionally — or `shutil.copy2` for a file.
Any exception raised by a copy propagates to the single function-level
`try`, whose handler logs once and returns `None`.  There is no per-item
handler.  Each item's disposition is an environment input:

* `missing`     — source path does not exist, guard skips it;
* `presentDir ok` / `presentFile ok` — source exists and the copy call
  either returns (`ok = true`) or raises (`ok = false`).

`iscanceled()` per iteration is the `cancels` input; a cancellation
`break`s out and still returns the snapshot name.  On the successful path
the code then calls `cleanup_old_backups` and records `last_backup`
(modelled in `install_build` below). -/

inductive ItemSpec
  | missing
  | presentDir (copyOk : Bool)
  | presentFile (copyOk : Bool)
deriving DecidableEq

/-- An item whose copy call raises. -/
def isFailItem : ItemSpec → Bool
  | ItemSpec.presentDir false => true
  | ItemSpec.presentFile false => true
  | _ => false

/-- An item that exists and copies successfully. -/
def isCopied : ItemSpec → Bool
  | ItemSpec.presentDir true => true
  | ItemSpec.presentFile true => true
  | _ => false

structure BackupTrace where
  result : Option String
  copied : List Nat
deriving DecidableEq

def mkBackupName (ts : Int) : String := "backup_" ++ toString ts

/-- The `for i, (name, source_path) in enumerate(backup_items)` loop.  An
exception in a copy aborts straight to the `except` handler: `None`. -/
def backupGo (ts : Int) (cancels : Nat → Bool) :
    List ItemSpec → Nat → List Nat → BackupTrace
  | [], _, acc => ⟨some (mkBackupName ts), acc.reverse⟩
  | it :: rest, i, acc =>
    if cancels i then ⟨some (mkBackupName ts), acc.reverse⟩
    else
      match it with
      | ItemSpec.missing => backupGo ts cancels rest (i + 1) acc
      | ItemSpec.presentDir ok =>
        if ok then backupGo ts cancels rest (i + 1) (i :: acc)
        else ⟨none, acc.reverse⟩
      | ItemSpec.presentFile ok =>
        if ok then backupGo ts cancels rest (i + 1) (i :: acc)
        else ⟨none, acc.reverse⟩

def create_backup (items : List ItemSpec) (ts : Int) (cancels : Nat → Bool) :
    BackupTrace :=
  backupGo ts cancels items 0 []

/-- Indices (from `i`) of the items that get copied when no copy fails. -/
def okIndicesFrom : List ItemSpec → Nat → List Nat
  | [], _ => []
  | it :: rest, i =>
    if isCopied it then i :: okIndicesFrom rest (i + 1)
    else okIndicesFrom rest (i + 1)

def noCancel : Nat → Bool := fun _ => false

/-- Counterexample to claim C3: with exactly one failing item among three
present items, `create_backup` does not skip just that item — it aborts,
returns no snapshot id at all (`None`), and the later valid item is never
copied. -/
theorem c3_single_failure_aborts_counterexample :
    ([ItemSpec.presentFile true, ItemSpec.presentDir false,
      ItemSpec.presentFile true].countP isFailItem = 1) ∧
    (create_backup [ItemSpec.presentFile true, ItemSpec.presentDir false,
      ItemSpec.presentFile true] 7 noCancel).result = none ∧
    (create_backup [ItemSpec.presentFile true, ItemSpec.presentDir false,
      ItemSpec.presentFile true] 7 noCancel).copied = [0] := by
  refine ⟨by decide, by decide, by decide⟩

theorem backupGo_all_ok (ts : Int) (items : List ItemSpec) :
    ∀ (i : Nat) (acc : List Nat), (∀ it ∈ items, isFailItem it = false) →
    backupGo ts noCancel items i acc =
      ⟨some (mkBackupName ts), acc.reverse ++ okIndicesFrom items i⟩ := by
  induction items with
  | nil => intro i acc _; simp [backupGo, okIndicesFrom]
  | cons it rest ih =>
    intro i acc hok
    have hit : isFailItem it = false := hok it (List.mem_cons_self it rest)
    have hrest : ∀ x ∈ rest, isFailItem x = false :=
      fun x hx => hok x (List.mem_cons_of_mem it hx)
    cases it with
    | missing =>
      simp [backupGo, noCancel, okIndicesFrom, isCopied, ih (i + 1) acc hrest]
    | presentDir ok =>
      cases ok with
      | false => simp [isFailItem] at hit
      | true =>
        simp [backupGo, noCancel, okIndicesFrom, isCopied,
          ih (i + 1) (i :: acc) hrest]
    | presentFile ok =>
      cases ok with
      | false => simp [isFailItem] at hit
      | true =>
        simp [backupGo, noCancel, okIndicesFrom, isCopied,
          ih (i + 1) (i :: acc) hrest]

theorem backupGo_fail (ts : Int) (items : List ItemSpec) :
    ∀ (i : Nat) (acc : List Nat), (∃ it ∈ items, isFailItem it = true) →
    (backupGo ts noCancel items i acc).result = none := by
  induction items with
  | nil => intro i acc h; rcases h with ⟨it, hit, _⟩; cases hit
  | cons it rest ih =>
    intro i acc h
    cases it with
    | missing =>
      rcases h with ⟨x, hx, hfail⟩
      rcases List.mem_cons.mp hx with rfl | hx'
      · cases hfail
      · simpa [backupGo, noCancel] using ih (i + 1) acc ⟨x, hx', hfail⟩
    | presentDir ok =>
      cases ok with
      | false => simp [backupGo, noCancel]
      | true =>
        rcases h with ⟨x, hx, hfail⟩
        rcases List.mem_cons.mp hx with rfl | hx'
        · cases hfail
        · simpa [backupGo, noCancel] using ih (i + 1) (i :: acc) ⟨x, hx', hfail⟩
    | presentFile ok =>
      cases ok with
      | false => simp [backupGo, noCancel]
      | true =>
        rcases h with ⟨x, hx, hfail⟩
        rcases List.mem_cons.mp hx with rfl | hx'
        · cases hfail
        · simpa [backupGo, noCancel] using ih (i + 1) (i :: acc) ⟨x, hx', hfail⟩

/-- Claim C3 as amended: a missing source path is indeed skipped without
error — when no copy call raises, the call (uncancelled) returns the
snapshot id and copies exactly the existing items.  But a copy failure on
any single item is NOT merely skipped: the exception aborts the whole
backup, is logged once at function level, and the call returns `None`
instead of a snapshot id (all-or-nothing, not best-effort).  In CPython
the directory branch always raises, because `copytree` is called with the
invalid keyword `ignore_errors`. -/
theorem c3_amended_backup_all_or_nothing (items : List ItemSpec) (ts : Int) :
    ((∀ it ∈ items, isFailItem it = false) →
      create_backup items ts noCancel =
        ⟨some (mkBackupName ts), okIndicesFrom items 0⟩) ∧
    ((∃ it ∈ items, isFailItem it = true) →
      (create_backup items ts noCancel).result = none) := by
  constructor
  · intro hok
    unfold create_backup
    rw [backupGo_all_ok ts items 0 [] hok]
    rfl
  · intro hfail
    exact backupGo_fail ts items 0 [] hfail

theorem c3_amended_backup_all_or_nothing_witness :
    (∀ it ∈ [ItemSpec.presentDir true, ItemSpec.missing,
        ItemSpec.presentFile true], isFailItem it = false) ∧
    create_backup [ItemSpec.presentDir true, ItemSpec.missing,
        ItemSpec.presentFile true] 4 noCancel =
      ⟨some (mkBackupName 4), okIndicesFrom [ItemSpec.presentDir true,
        ItemSpec.missing, ItemSpec.presentFile true] 0⟩ :=
  ⟨by decide,
   (c3_amended_backup_all_or_nothing [ItemSpec.presentDir true,
      ItemSpec.missing, ItemSpec.presentFile true] 4).1 (by decide)⟩

/-! Embedding of `download_file` (lines 368-413).

`requests.get(..., stream=True)` either raises / returns a non-2xx status
(`getOk = false`) or yields a chunk stream.  The destination is opened
with mode `'wb'` (truncating/creating it), then for each chunk the loop
first consults `progress.iscanceled()`; the stream may also raise mid-
iteration.  All three interruptions — GET failure, cancellation, transport
error — end with `os.remove(destination)` (in the cancel branch and in the
`except` handler), so the model folds the per-iteration outcomes into one
event list:

* `chunk data` — a chunk arrives with `iscanceled()` false (an empty chunk
  is skipped by `if chunk:`);
* `cancel`     — `iscanceled()` returns true at this boundary;
* `transportErr` — `iter_content` raises here.

`dest = none` means no file exists at the destination path afterwards;
`init` is whatever file existed there before the call. -/

inductive ChunkEv
  | chunk (data : List Nat)
  | cancel
  | transportErr
deriving DecidableEq

structure DownloadResult where
  ok : Bool
  dest : Option (List Nat)
deriving DecidableEq

def downloadGo : List ChunkEv → List Nat → DownloadResult
  | [], acc => ⟨true, some acc⟩
  | ChunkEv.cancel :: _, _ => ⟨false, none⟩
  | ChunkEv.transportErr :: _, _ => ⟨false, none⟩
  | ChunkEv.chunk data :: rest, acc =>
    if data = [] then downloadGo rest acc else downloadGo rest (acc ++ data)

def download_file (getOk : Bool) (init : Option (List Nat))
    (events : List ChunkEv) : DownloadResult :=
  if getOk then downloadGo events [] else
    match init with
    | some _ => ⟨false, none⟩
    | none => ⟨false, none⟩

theorem downloadGo_interrupted (events : List ChunkEv) :
    ∀ acc : List Nat,
    (∃ e ∈ events, e = ChunkEv.cancel ∨ e = ChunkEv.transportErr) →
    downloadGo events acc = ⟨false, none⟩ := by
  induction events with
  | nil => intro acc h; rcases h with ⟨e, he, _⟩; cases he
  | cons ev rest ih =>
    intro acc h
    cases ev with
    | cancel => rfl
    | transportErr => rfl
    | chunk data =>
      rcases h with ⟨e, he, hor⟩
      rcases List.mem_cons.mp he with rfl | he'
      · rcases hor with h' | h' <;> cases h'
      · unfold downloadGo
        by_cases hd : data = [] <;> simp [hd, ih _ ⟨e, he', hor⟩]

/-- Claim C7: if the GET fails, or any chunk boundary sees a cancellation,
or the stream raises a transport error, `download_file` returns failure as
a value and no file is left at the destination path. -/
theorem c7_download_no_partial_file (getOk : Bool) (init : Option (List Nat))
    (events : List ChunkEv)
    (h : getOk = false ∨
         ∃ e ∈ events, e = ChunkEv.cancel ∨ e = ChunkEv.transportErr) :
    download_file getOk init events = ⟨false, none⟩ := by
  rcases h with h | h
  · subst h
    unfold download_file
    cases init <;> rfl
  · unfold download_file
    cases getOk with
    | false => cases init <;> rfl
    | true => simpa using downloadGo_interrupted events [] h

theorem c7_download_no_partial_file_witness :
    (∃ e ∈ [ChunkEv.chunk [1, 2], ChunkEv.cancel, ChunkEv.chunk [3]],
      e = ChunkEv.cancel ∨ e = ChunkEv.transportErr) ∧
    download_file true (some [9, 9])
      [ChunkEv.chunk [1, 2], ChunkEv.cancel, ChunkEv.chunk [3]] =
      ⟨false, none⟩ :=
  ⟨by decide,
   c7_download_no_partial_file true (some [9, 9])
     [ChunkEv.chunk [1, 2], ChunkEv.cancel, ChunkEv.chunk [3]]
     (Or.inr (by decide))⟩

/-! Embedding of `extract_build` (lines 415-449).

Opening the archive may raise (`openOk = false`, outer `except`, returns
`False`).  Otherwise the loop walks `namelist()`; each entry's
`zip_ref.extract` sits in its own `try/except: continue`, so a corrupt or
unsupported entry is skipped; `iscanceled()` aborts with `False`.  Good
entries land under the target directory, modelled by the list of extracted
entry names in order. -/

inductive EntrySpec
  | good (name : String)
  | corrupt (name : String)
deriving DecidableEq

def isCorruptEntry : EntrySpec → Bool
  | EntrySpec.corrupt _ => true
  | EntrySpec.good _ => false

def goodName : EntrySpec → Option String
  | EntrySpec.good n => some n
  | EntrySpec.corrupt _ => none

structure ExtractResult where
  ok : Bool
  extracted : List String
deriving DecidableEq

def extractGo (cancels : Nat → Bool) :
    List EntrySpec → Nat → List String → ExtractResult
  | [], _, acc => ⟨true, acc.reverse⟩
  | e :: rest, i, acc =>
    if cancels i then ⟨false, acc.reverse⟩
    else
      match e with
      | EntrySpec.good n => extractGo cancels rest (i + 1) (n :: acc)
      | EntrySpec.corrupt _ => extractGo cancels rest (i + 1) acc

def extract_build (openOk : Bool) (cancels : Nat → Bool)
    (entries : List EntrySpec) : ExtractResult :=
  if openOk then extractGo cancels entries 0 [] else ⟨false, []⟩

theorem extractGo_no_cancel (entries : List EntrySpec) :
    ∀ (i : Nat) (acc : List String),
    extractGo noCancel entries i acc =
      ⟨true, acc.reverse ++ entries.filterMap goodName⟩ := by
  induction entries with
  | nil => intro i acc; simp [extractGo]
  | cons e rest ih =>
    intro i acc
    cases e with
    | good n => simp [extractGo, noCancel, goodName, ih (i + 1) (n :: acc)]
    | corrupt n => simp [extractGo, noCancel, goodName, ih (i + 1) acc]

theorem length_filterMap_goodName (entries : List EntrySpec) :
    entries.length =
      (entries.filterMap goodName).length + entries.countP isCorruptEntry := by
  induction entries with
  | nil => rfl
  | cons e rest ih =>
    cases e with
    | good n =>
      simp [List.filterMap_cons, goodName, List.countP_cons, isCorruptEntry]
      omega
    | corrupt n =>
      simp [List.filterMap_cons, goodName, List.countP_cons, isCorruptEntry]
      omega

/-- Claim C8: on an archive that opens, with one corrupt entry among N
valid entries and no cancellation, extraction skips the damaged entry,
places exactly the N valid entries (in order) under the target directory,
and reports success. -/
theorem c8_extract_skips_corrupt_entry (entries : List EntrySpec)
    (hone : entries.countP isCorruptEntry = 1) :
    extract_build true noCancel entries =
      ⟨true, entries.filterMap goodName⟩ ∧
    (entries.filterMap goodName).length = entries.length - 1 := by
  constructor
  · unfold extract_build
    rw [if_pos rfl]
    simpa using extractGo_no_cancel entries 0 []
  · have hsplit := length_filterMap_goodName entries
    omega

theorem c8_extract_skips_corrupt_entry_witness :
    ([EntrySpec.good "a.xml", EntrySpec.corrupt "bad.bin",
      EntrySpec.good "b.xml"].countP isCorruptEntry = 1) ∧
    (extract_build true noCancel [EntrySpec.good "a.xml",
        EntrySpec.corrupt "bad.bin", EntrySpec.good "b.xml"] =
      ⟨true, [EntrySpec.good "a.xml", EntrySpec.corrupt "bad.bin",
        EntrySpec.good "b.xml"].filterMap goodName⟩ ∧
     ([EntrySpec.good "a.xml", EntrySpec.corrupt "bad.bin",
        EntrySpec.good "b.xml"].filterMap goodName).length =
       [EntrySpec.good "a.xml", EntrySpec.corrupt "bad.bin",
        EntrySpec.good "b.xml"].length - 1) :=
  ⟨by decide,
   c8_extract_skips_corrupt_entry [EntrySpec.good "a.xml",
     EntrySpec.corrupt "bad.bin", EntrySpec.good "b.xml"] (by decide)⟩

/-! Embedding of `complete_installation` (lines 522-581).

The marker file `install_marker.json` lives at a single fixed path, so the
filesystem can hold at most one marker; the model makes this inherent by
representing the marker slot as an `Option MarkerData`.

The method: returns immediately when no marker exists; otherwise reads it
(a read/parse failure lands in the outer `except`, which removes the
marker file); aborts removing the marker when the recorded extracted
payload path is gone; otherwise copies the payload into the Kodi home
(`copy_build_files`, outcome `copyOk`), and then either finalises
(cleanup, remove marker, `save_build_info`, success notification, possibly
the first-run wizard) or — on failure — restores the recorded backup when
one was recorded (Python truthiness: `if backup_name:` is false for both
`None` and `""`), notifies, and removes the marker. -/

structure MarkerData where
  temp_extract : String
  temp_zip : String
  build_name : String
  backup_name : Option String
  install_time : Int
deriving DecidableEq

structure BuildInfo where
  installed_build : Option String
  version : Option String
  install_date : Option Int
  last_backup : Option String
deriving DecidableEq

/-- Model of `save_build_info(build_name)` — the `version=None` default makes it
store `extract_version_from_name(build_name)`. -/
def save_build_info (bi : BuildInfo) (build_name : String) (now : Int) :
    BuildInfo :=
  { bi with installed_build := some build_name,
            version := some (extract_version_from_name build_name),
            install_date := some now }

/-- Externally visible actions of the post-restart completion step. -/
inductive CEvent
  | copyFiles (src dst : String)
  | cleanupTemp (zip ext : String)
  | removeMarker
  | saveInfo (name : String)
  | restore (backup : String)
  | notifySuccess
  | notifyFailRestored
  | notifyFail
  | firstRunSetup
deriving DecidableEq

/-- The translated path `special://home/` that `copy_build_files` targets. -/
def kodi_home : String := "special://home/"

structure CompleteEnv where
  parseOk : Bool
  pathExists : String → Bool
  copyOk : Bool
  now : Int
  firstRunComplete : Bool

/-- Python truthiness of the `backup_name` recorded in the marker. -/
def backupTruthy : Option String → Bool
  | some b => !(b = "" : Bool)
  | none => false

def complete_installation (marker : Option MarkerData) (bi : BuildInfo)
    (env : CompleteEnv) : Option MarkerData × BuildInfo × List CEvent :=
  match marker with
  | none => (none, bi, [])
  | some m =>
    if ¬ env.parseOk then (none, bi, [CEvent.removeMarker])
    else if ¬ env.pathExists m.temp_extract then
      (none, bi, [CEvent.removeMarker])
    else if env.copyOk then
      (none, save_build_info bi m.build_name env.now,
       [CEvent.copyFiles m.temp_extract kodi_home,
        CEvent.cleanupTemp m.temp_zip m.temp_extract,
        CEvent.removeMarker, CEvent.saveInfo m.build_name,
        CEvent.notifySuccess] ++
       (if env.firstRunComplete then [] else [CEvent.firstRunSetup]))
    else
      match m.backup_name with
      | some b =>
        if b = "" then
          (none, bi, [CEvent.copyFiles m.temp_extract kodi_home,
                      CEvent.notifyFail, CEvent.removeMarker])
        else
          (none, bi, [CEvent.copyFiles m.temp_extract kodi_home,
                      CEvent.restore b, CEvent.notifyFailRestored,
                      CEvent.removeMarker])
      | none =>
        (none, bi, [CEvent.copyFiles m.temp_extract kodi_home,
                    CEvent.notifyFail, CEvent.removeMarker])

/-- Claim C4: the marker slot is a single `Option` (at most one marker by
construction); every completion run that consumes an existing marker ends
with the marker deleted, whatever the outcome; and in the failure case
with a (truthy) recorded backup id, restore is invoked strictly before the
marker is deleted — the trace is exactly copy, restore, notify, remove. -/
theorem c4_marker_always_deleted (m : MarkerData) (bi : BuildInfo)
    (env : CompleteEnv) :
    (complete_installation (some m) bi env).1 = none ∧
    CEvent.removeMarker ∈ (complete_installation (some m) bi env).2.2 ∧
    (∀ b : String, env.parseOk = true → env.pathExists m.temp_extract = true →
      env.copyOk = false → m.backup_name = some b → b ≠ "" →
      (complete_installation (some m) bi env).2.2 =
        [CEvent.copyFiles m.temp_extract kodi_home, CEvent.restore b,
         CEvent.notifyFailRestored, CEvent.removeMarker]) := by
  refine ⟨?_, ?_, ?_⟩
  · unfold complete_installation
    by_cases hp : env.parseOk
    · by_cases he : env.pathExists m.temp_extract
      · by_cases hc : env.copyOk
        · simp [hp, he, hc]
        · cases hb : m.backup_name with
          | none => simp [hp, he, hc, hb]
          | some b => by_cases hbe : b = "" <;> simp [hp, he, hc, hb, hbe]
      · simp [hp, he]
    · simp [hp]
  · unfold complete_installation
    by_cases hp : env.parseOk
    · by_cases he : env.pathExists m.temp_extract
      · by_cases hc : env.copyOk
        · by_cases hf : env.firstRunComplete <;> simp [hp, he, hc, hf]
        · cases hb : m.backup_name with
          | none => simp [hp, he, hc, hb]
          | some b => by_cases hbe : b = "" <;> simp [hp, he, hc, hb, hbe]
      · simp [hp, he]
    · simp [hp]
  · intro b hp he hc hb hbe
    unfold complete_installation
    simp [hp, he, hc, hb, hbe]

theorem c4_marker_always_deleted_witness :
    ((⟨true, fun _ => true, false, 5, true⟩ : CompleteEnv).parseOk = true ∧
     (⟨true, fun _ => true, false, 5, true⟩ : CompleteEnv).pathExists "e" = true ∧
     (⟨true, fun _ => true, false, 5, true⟩ : CompleteEnv).copyOk = false ∧
     (⟨"e", "z", "B", some "backup_1", 3⟩ : MarkerData).backup_name =
       some "backup_1" ∧ "backup_1" ≠ "") ∧
    ((complete_installation (some ⟨"e", "z", "B", some "backup_1", 3⟩)
        ⟨none, none, none, none⟩ ⟨true, fun _ => true, false, 5, true⟩).1 =
      none ∧
     CEvent.removeMarker ∈ (complete_installation
        (some ⟨"e", "z", "B", some "backup_1", 3⟩)
        ⟨none, none, none, none⟩ ⟨true, fun _ => true, false, 5, true⟩).2.2 ∧
     (complete_installation (some ⟨"e", "z", "B", some "backup_1", 3⟩)
        ⟨none, none, none, none⟩ ⟨true, fun _ => true, false, 5, true⟩).2.2 =
       [CEvent.copyFiles "e" kodi_home, CEvent.restore "backup_1",
        CEvent.notifyFailRestored, CEvent.removeMarker]) := by
  have h := c4_marker_always_deleted ⟨"e", "z", "B", some "backup_1", 3⟩
    ⟨none, none, none, none⟩ ⟨true, fun _ => true, false, 5, true⟩
  exact ⟨⟨rfl, rfl, rfl, rfl, by decide⟩,
    h.1, h.2.1, h.2.2 "backup_1" rfl rfl rfl rfl (by decide)⟩

/-- Claim C5: resuming with a readable marker whose recorded
extracted-payload path no longer exists removes the marker and does
nothing else: no restore, no live-tree copy, build info untouched. -/
theorem c5_stale_marker_discarded (m : MarkerData) (bi : BuildInfo)
    (env : CompleteEnv) (hp : env.parseOk = true)
    (he : env.pathExists m.temp_extract = false) :
    complete_installation (some m) bi env = (none, bi, [CEvent.removeMarker]) ∧
    (∀ b : String,
      CEvent.restore b ∉ (complete_installation (some m) bi env).2.2) ∧
    (∀ s d : String,
      CEvent.copyFiles s d ∉ (complete_installation (some m) bi env).2.2) ∧
    (complete_installation (some m) bi env).2.1 = bi := by
  have hmain : complete_installation (some m) bi env =
      (none, bi, [CEvent.removeMarker]) := by
    unfold complete_installation
    simp [hp, he]
  refine ⟨hmain, ?_, ?_, ?_⟩
  · intro b
    rw [hmain]
    simp
  · intro s d
    rw [hmain]
    simp
  · rw [hmain]

theorem c5_stale_marker_discarded_witness :
    ((⟨true, fun _ => false, true, 9, true⟩ : CompleteEnv).parseOk = true ∧
     (⟨true, fun _ => false, true, 9, true⟩ : CompleteEnv).pathExists "gone" =
       false) ∧
    complete_installation (some ⟨"gone", "z.zip", "B", some "bk", 1⟩)
        ⟨some "B", some "1.0", none, none⟩
        ⟨true, fun _ => false, true, 9, true⟩ =
      (none, ⟨some "B", some "1.0", none, none⟩, [CEvent.removeMarker]) :=
  ⟨⟨rfl, rfl⟩,
   (c5_stale_marker_discarded ⟨"gone", "z.zip", "B", some "bk", 1⟩
     ⟨some "B", some "1.0", none, none⟩
     ⟨true, fun _ => false, true, 9, true⟩ rfl rfl).1⟩

/-! Embedding of `check_build_updates` (lines 1336-1360), `install_build` (451-520), and `startup_update_check` (1258-1277).

`check_build_updates` scans the fetched catalog for an entry whose `name`
equals the installed build's name and whose version (parsed from the name)
is strictly newer than the recorded one; `build_info.get('version', '1.0')`
always finds the key (the loader merges defaults), but its value may be
`None`, in which case `compare_versions` receives `None`, raises inside
its own `try`, and yields 0 — modelled by `cmpVs`.

`install_build` runs the pre-restart phase: connectivity check, backup
(outcome `backupResult`; on `None` the user may override), download,
extraction to a side location, persisting build info and settings, then
writing the `install_marker.json` record and requesting a restart.  The
outcomes of the external steps are the `InstallEnv` fields; `create_backup`
and the temp-file names are used through their results
(`backupResult`, `mkTempZip`/`mkTempExtract`).

`startup_then_resume` composes the startup check with the post-restart
completion step, the composition the C1 scenario runs end to end. -/

structure Build where
  name : String
  url : String
  admin : Bool
deriving DecidableEq

structure BuildsData where
  builds : List Build
  admin_password_hash : String
deriving DecidableEq

structure WizSettings where
  auto_updates : Bool
  last_update_check : Int
  current_build : Option String
  first_run_complete : Bool
deriving DecidableEq

structure WizState where
  settings : WizSettings
  build_info : BuildInfo
  marker : Option MarkerData
deriving DecidableEq

def cmpVs (remote : String) (cur : Option String) : Int :=
  match cur with
  | some v => compare_versions remote v
  | none => 0

/-- The `for build in builds_data.get('builds', [])` loop. -/
def findUpdate (current_build : String) (cur_version : Option String) :
    List Build → Option Build
  | [] => none
  | b :: rest =>
    if b.name = current_build then
      if cmpVs (extract_version_from_name b.name) cur_version > 0 then some b
      else findUpdate current_build cur_version rest
    else findUpdate current_build cur_version rest

def check_build_updates (bi : BuildInfo) (fetched : Option BuildsData) :
    Option Build :=
  match bi.installed_build with
  | none => none
  | some cur =>
    if cur = "" then none
    else
      match fetched with
      | none => none
      | some data => findUpdate cur bi.version data.builds

def mkTempZip (ts : Int) : String := "build_" ++ toString ts ++ ".zip"

def mkTempExtract (ts : Int) : String := "extract_" ++ toString ts

structure InstallEnv where
  connectivityOk : Bool
  backupResult : Option String
  overrideBackupFail : Bool
  downloadOk : Bool
  extractOk : Bool
  now : Int
deriving DecidableEq

structure InstallOutcome where
  state : WizState
  restartRequested : Bool
  ok : Bool
deriving DecidableEq

def install_build (st : WizState) (b : Build) (env : InstallEnv) :
    InstallOutcome :=
  if ¬ env.connectivityOk then ⟨st, false, false⟩
  else
    let bi0 : BuildInfo :=
      match env.backupResult with
      | some bn => { st.build_info with last_backup := some bn }
      | none => st.build_info
    if env.backupResult = none ∧ ¬ env.overrideBackupFail then
      ⟨{ st with build_info := bi0 }, false, false⟩
    else if ¬ env.downloadOk then ⟨{ st with build_info := bi0 }, false, false⟩
    else if ¬ env.extractOk then ⟨{ st with build_info := bi0 }, false, false⟩
    else
      ⟨⟨{ st.settings with current_build := some b.name },
        save_build_info bi0 b.name env.now,
        some ⟨mkTempExtract env.now, mkTempZip env.now, b.name,
              env.backupResult, env.now⟩⟩,
       true, true⟩

structure StartupEnv where
  wizardUpdated : Bool
  fetched : Option BuildsData
  install : InstallEnv

def startup_update_check (st : WizState) (env : StartupEnv) : InstallOutcome :=
  if ¬ st.settings.auto_updates then ⟨st, false, false⟩
  else if env.wizardUpdated then ⟨st, false, false⟩
  else
    match check_build_updates st.build_info env.fetched with
    | some b => install_build st b env.install
    | none => ⟨st, false, false⟩

/-- The startup check followed — when a restart was requested — by the
post-restart `complete_installation` pass of the next process start. -/
def startup_then_resume (st : WizState) (env : StartupEnv)
    (cenv : CompleteEnv) : WizState :=
  let o := startup_update_check st env
  if o.restartRequested then
    let r := complete_installation o.state.marker o.state.build_info cenv
    { o.state with marker := r.1, build_info := r.2.1 }
  else o.state

theorem extract_version_cutcable : extract_version_from_name "CutCable-v1.2" = "1.2" := by
  decide

theorem compare_12_11 : compare_versions "1.2" "1.1" = 1 := by decide

/-- Claim C1: with the catalog listing `CutCable-v1.2` as the (sole) latest
entry for the installed build, installed version `1.1`, auto-updates on,
and every external step succeeding through the post-restart apply, the
update is detected, and afterwards the build info records version `1.2`
and no install marker exists. -/
theorem c1_update_scenario (st : WizState) (env : StartupEnv)
    (cenv : CompleteEnv) (url hash : String) (adm : Bool) (bn : String)
    (hau : st.settings.auto_updates = true)
    (hib : st.build_info.installed_build = some "CutCable-v1.2")
    (hver : st.build_info.version = some "1.1")
    (hw : env.wizardUpdated = false)
    (hf : env.fetched = some ⟨[⟨"CutCable-v1.2", url, adm⟩], hash⟩)
    (hconn : env.install.connectivityOk = true)
    (hbk : env.install.backupResult = some bn)
    (hdl : env.install.downloadOk = true)
    (hex : env.install.extractOk = true)
    (hparse : cenv.parseOk = true)
    (hpe : cenv.pathExists (mkTempExtract env.install.now) = true)
    (hcp : cenv.copyOk = true) :
    check_build_updates st.build_info env.fetched =
      some ⟨"CutCable-v1.2", url, adm⟩ ∧
    (startup_then_resume st env cenv).build_info.version = some "1.2" ∧
    (startup_then_resume st env cenv).marker = none := by
  have hdetect : check_build_updates st.build_info env.fetched =
      some ⟨"CutCable-v1.2", url, adm⟩ := by
    rw [check_build_updates, hib, hf]
    simp [findUpdate, cmpVs, hver, extract_version_cutcable, compare_12_11]
  refine ⟨hdetect, ?_⟩
  have hinstall : install_build st ⟨"CutCable-v1.2", url, adm⟩ env.install =
      ⟨⟨{ st.settings with current_build := some "CutCable-v1.2" },
        save_build_info { st.build_info with last_backup := some bn }
          "CutCable-v1.2" env.install.now,
        some ⟨mkTempExtract env.install.now, mkTempZip env.install.now,
              "CutCable-v1.2", env.install.backupResult, env.install.now⟩⟩,
       true, true⟩ := by
    rw [install_build]
    simp [hconn, hbk, hdl, hex]
  have hstart : startup_update_check st env =
      install_build st ⟨"CutCable-v1.2", url, adm⟩ env.install := by
    rw [startup_update_check]
    simp [hau, hw, hdetect]
  rw [startup_then_resume, hstart, hinstall]
  simp only []
  rw [complete_installation]
  simp only [hparse, hpe, hcp, not_true, if_false, if_true, ite_true,
    Bool.not_eq_true]
  constructor
  · simp [save_build_info, extract_version_cutcable]
  · simp

def c1St : WizState :=
  ⟨⟨true, 0, none, true⟩,
   ⟨some "CutCable-v1.2", some "1.1", none, none⟩, none⟩

def c1Env : StartupEnv :=
  ⟨false, some ⟨[⟨"CutCable-v1.2", "http://x", false⟩], "h"⟩,
   ⟨true, some "backup_1", true, true, true, 0⟩⟩

def c1CEnv : CompleteEnv := ⟨true, fun _ => true, true, 1, true⟩

theorem c1_update_scenario_witness :
    (c1St.settings.auto_updates = true ∧
     c1St.build_info.installed_build = some "CutCable-v1.2" ∧
     c1St.build_info.version = some "1.1" ∧
     c1Env.wizardUpdated = false ∧
     c1Env.fetched = some ⟨[⟨"CutCable-v1.2", "http://x", false⟩], "h"⟩ ∧
     c1Env.install.connectivityOk = true ∧
     c1CEnv.parseOk = true ∧
     c1CEnv.pathExists (mkTempExtract c1Env.install.now) = true ∧
     c1CEnv.copyOk = true) ∧
    (check_build_updates c1St.build_info c1Env.fetched =
       some ⟨"CutCable-v1.2", "http://x", false⟩ ∧
     (startup_then_resume c1St c1Env c1CEnv).build_info.version =
       some "1.2" ∧
     (startup_then_resume c1St c1Env c1CEnv).marker = none) :=
  ⟨⟨rfl, rfl, rfl, rfl, rfl, rfl, rfl, rfl, rfl⟩,
   c1_update_scenario c1St c1Env c1CEnv "http://x" "h" false "backup_1"
     rfl rfl rfl rfl rfl rfl rfl rfl rfl rfl rfl rfl⟩

/-! Embedding of `periodic_update_check` (lines 1279-1308).

After the auto-update and once-per-day gates pass, the method first writes
`settings['last_update_check'] = current_time` and calls `save_settings()`,
and only then performs the network checks (`check_wizard_update`, then
`check_build_updates`); a positive build check just raises a notification.
The trace records these actions in program order.  Timestamps are `Int`,
matching Python's signed arithmetic on `current_time - last_check`. -/

inductive SchedEvent
  | saveSettings (last_check : Int)
  | wizardCheck
  | buildCheck
  | notifyUpdate
deriving DecidableEq

structure SchedEnv where
  wizardUpdated : Bool
  fetched : Option BuildsData

def periodic_update_check (s : WizSettings) (bi : BuildInfo) (now : Int)
    (env : SchedEnv) : WizSettings × List SchedEvent :=
  if ¬ s.auto_updates then (s, [])
  else if now - s.last_update_check < 86400 then (s, [])
  else
    ({ s with last_update_check := now },
     SchedEvent.saveSettings now :: SchedEvent.wizardCheck ::
     (if env.wizardUpdated then []
      else
        SchedEvent.buildCheck ::
        (match check_build_updates bi env.fetched with
         | some _ => [SchedEvent.notifyUpdate]
         | none => [])))

/-- Claim C10: when auto-updates are on and at least 86400 seconds have
elapsed, the check (i) stores `now` as the last-check time, (ii) persists
the settings as the very first action, before the wizard/catalog checks,
whatever their outcome, and (iii) therefore a repeat call within the next
86400 seconds — e.g. after the check failed — does nothing. -/
theorem c10_interval_consumed_before_check (s : WizSettings) (bi : BuildInfo)
    (now : Int) (env : SchedEnv) (hau : s.auto_updates = true)
    (helapsed : 86400 ≤ now - s.last_update_check) :
    (periodic_update_check s bi now env).1.last_update_check = now ∧
    (∃ rest : List SchedEvent, (periodic_update_check s bi now env).2 =
      SchedEvent.saveSettings now :: SchedEvent.wizardCheck :: rest) ∧
    (∀ (now₂ : Int) (bi₂ : BuildInfo) (env₂ : SchedEnv),
      now₂ - now < 86400 →
      periodic_update_check (periodic_update_check s bi now env).1 bi₂ now₂
        env₂ = ((periodic_update_check s bi now env).1, [])) := by
  have hgate : ¬ now - s.last_update_check < 86400 := not_lt.mpr helapsed
  have hrun : periodic_update_check s bi now env =
      ({ s with last_update_check := now },
       SchedEvent.saveSettings now :: SchedEvent.wizardCheck ::
       (if env.wizardUpdated then []
        else
          SchedEvent.buildCheck ::
          (match check_build_updates bi env.fetched with
           | some _ => [SchedEvent.notifyUpdate]
           | none => []))) := by
    rw [periodic_update_check]
    simp [hau, hgate]
  refine ⟨by rw [hrun], ⟨_, by rw [hrun]⟩, ?_⟩
  intro now₂ bi₂ env₂ hlt
  rw [hrun]
  rw [periodic_update_check]
  simp [hlt]

theorem c10_interval_consumed_before_check_witness :
    ((⟨true, 0, none, true⟩ : WizSettings).auto_updates = true ∧
     86400 ≤ (100000 : Int) - (⟨true, 0, none, true⟩ : WizSettings).last_update_check) ∧
    ((periodic_update_check ⟨true, 0, none, true⟩ ⟨none, none, none, none⟩
        100000 ⟨false, none⟩).1.last_update_check = 100000 ∧
     (∃ rest : List SchedEvent,
       (periodic_update_check ⟨true, 0, none, true⟩ ⟨none, none, none, none⟩
          100000 ⟨false, none⟩).2 =
         SchedEvent.saveSettings 100000 :: SchedEvent.wizardCheck :: rest) ∧
     (∀ (now₂ : Int) (bi₂ : BuildInfo) (env₂ : SchedEnv),
       now₂ - 100000 < 86400 →
       periodic_update_check
         (periodic_update_check ⟨true, 0, none, true⟩ ⟨none, none, none, none⟩
            100000 ⟨false, none⟩).1 bi₂ now₂ env₂ =
         ((periodic_update_check ⟨true, 0, none, true⟩
            ⟨none, none, none, none⟩ 100000 ⟨false, none⟩).1, []))) :=
  ⟨⟨rfl, by decide⟩,
   c10_interval_consumed_before_check ⟨true, 0, none, true⟩
     ⟨none, none, none, none⟩ 100000 ⟨false, none⟩ rfl (by decide)⟩
